import Mathlib

/-!
Shallow embedding of the everest-mod-cli synchronization engine.

The embedding follows the Rust sources: src/installed_mods.rs (manifest
parsing, LocalModInfo), src/fileutil.rs (archive inspection, BOM stripping,
directory enumeration), src/download.rs (update planning, download and
checksum verification, inventory scan), src/mod_registry.rs (remote
registry), and the Update --install arm of src/main.rs (per-task execution
and batch join).

Modelling conventions: filesystem paths are lists of components, where an
absolute path starts with the component "/"; byte buffers are lists of
naturals; the xxh64 hex digest and the serde YAML decoding are external
collaborators and appear as explicit function parameters; the filesystem
touched by the download phase is an association list from paths to byte
contents.
-/

/-! ## String helpers

Rust compares strings byte-wise; for UTF-8 data, byte order and codepoint
order coincide, so the embedding compares character lists.
-/

/-- Lexicographic (byte/codepoint) order on character lists, the order used
by the Rust str cmp in the sort of list_installed_mods. -/
def charListLe : List Char → List Char → Bool
  | [], _ => true
  | _ :: _, [] => false
  | a :: as, b :: bs => if a = b then charListLe as bs else decide (a < b)

/-- Byte-order comparison of two strings (Rust String cmp). -/
def strLeByte (a b : String) : Bool :=
  charListLe a.data b.data

/-- Character-wise lowercasing of a string (Rust str to_lowercase on
hexadecimal ASCII data). -/
def lowerStr (s : String) : String :=
  String.mk (s.data.map Char.toLower)

/-- Suffix test on strings at character level (Rust str ends_with; for valid
UTF-8 the byte-suffix test and the character-suffix test agree). -/
def nameEndsWith (s suffix : String) : Bool :=
  List.isSuffixOf suffix.data s.data

/-! ## Data model: manifests and local mods (src/installed_mods.rs) -/

/-- Dependency specification of a mod manifest (installed_mods.rs). -/
structure Dependency where
  name : String
  version : Option String
deriving DecidableEq

/-- The everest.yaml manifest record that defines a mod (installed_mods.rs). -/
structure ModManifest where
  name : String
  version : String
  dll : Option String
  dependencies : Option (List Dependency)
  optional_dependencies : Option (List Dependency)
deriving DecidableEq

/-- Error taxonomy of src/error.rs. The transparent wrappers (Io, Zip, Yaml,
Request) are modelled as bare constructors since the wrapped foreign error
values carry no information the claims need. -/
inductive Error where
  | ioError
  | zipError
  | yamlError
  | missingModsDirectory
  | noEntriesInModManifest (entries : List ModManifest)
  | invalidChecksum (file : List String) (computed : String) (expected : List String)
  | requestError
deriving DecidableEq

/-- Parsing of a mod manifest document, installed_mods.rs lines 32-39.
The serde_yaml_ng decoding itself is an external collaborator, so the
function receives its outcome: an error, or the decoded list of manifest
entries. The source pops the first entry of the deque; when none exists it
returns NoEntriesInModManifest carrying the (then empty) deque. -/
def ModManifest.parse_mod_manifest_from_yaml
    (parsed : Except Unit (List ModManifest)) : Except Error ModManifest :=
  match parsed with
  | .error _ => .error .yamlError
  | .ok entries =>
    match entries with
    | [] => .error (.noEntriesInModManifest [])
    | m :: _ => .ok m

/-- Information about a locally installed mod (installed_mods.rs). The
archive path is a component list. -/
structure LocalModInfo where
  archive_path : List String
  mod_name : String
  version : String
  checksum : String
deriving DecidableEq

/-- LocalModInfo construction, installed_mods.rs lines 64-80: the stored
archive path is only the final filename component of the given path
(Rust Path file_name), falling back to the whole path when there is no
final component. The scanner always passes a path ending in a real
filename. -/
def LocalModInfo.new (archive_path : List String) (manifest : ModManifest)
    (checksum : String) : LocalModInfo :=
  let archive_filename :=
    match archive_path.getLast? with
    | some n => [n]
    | none => archive_path
  { archive_path := archive_filename
    mod_name := manifest.name
    version := manifest.version
    checksum := checksum }

/-! ## Data model: remote registry (src/mod_registry.rs) -/

/-- One entry of the remote registry (mod_registry.rs). -/
structure RemoteModInfo where
  name : String
  version : String
  file_size : Nat
  updated_at : Nat
  download_url : String
  checksums : List String
  gamebanana_type : String
  gamebanana_id : Nat
deriving DecidableEq

/-- The remote registry: a map from mod name to entry, modelled as an
association list with distinct keys (Rust HashMap). -/
structure ModRegistry where
  entries : List (String × RemoteModInfo)
deriving DecidableEq

/-- Registry lookup by exact mod name (mod_registry.rs lines 64-66,
HashMap get with exact string equality). -/
def ModRegistry.get_mod_info (reg : ModRegistry) (name : String) :
    Option RemoteModInfo :=
  (reg.entries.find? (fun e => e.1 == name)).map (fun e => e.2)

/-- Modelled from the spec: RemoteModInfo::has_matching_hash is called in
download.rs line 74 but its definition is not among the provided sources
(mod_registry.rs does not declare it). Spec section 4.4: the membership
test is exact string equality after normalizing both sides to lowercase
hexadecimal; no substring matches. -/
def RemoteModInfo.has_matching_hash (r : RemoteModInfo) (checksum : String) :
    Bool :=
  r.checksums.any (fun c => lowerStr c == lowerStr checksum)

/-- Update information about a mod (download.rs AvailableUpdateInfo). -/
structure AvailableUpdateInfo where
  name : String
  current_version : String
  available_version : String
  url : String
  hash : List String
  existing_path : List String
deriving DecidableEq

/-- The update planning loop of ModDownloader::check_updates, download.rs
lines 72-87, over an already computed local inventory: for each local mod,
look its name up in the registry; no entry means no task; an entry with a
matching hash means no task; otherwise push a task built from the local
record and the registry entry. -/
def check_updates (installed : List LocalModInfo) (reg : ModRegistry) :
    List AvailableUpdateInfo :=
  match installed with
  | [] => []
  | local_mod :: rest =>
    match reg.get_mod_info local_mod.mod_name with
    | none => check_updates rest reg
    | some remote_mod =>
      if remote_mod.has_matching_hash local_mod.checksum then
        check_updates rest reg
      else
        { name := local_mod.mod_name
          current_version := local_mod.version
          available_version := remote_mod.version
          url := remote_mod.download_url
          hash := remote_mod.checksums
          existing_path := local_mod.archive_path } :: check_updates rest reg

/-! ## Archive inspection (src/fileutil.rs, src/everest_yaml.rs) -/

/-- A local archive as the inspector sees it: either a container that cannot
be opened (corrupt or unreadable), or a list of named entries with byte
contents. -/
inductive ArchiveData where
  | corrupt
  | archiveEntries (l : List (String × List Nat))
deriving DecidableEq

/-- Modelled from the spec: the constant MOD_MANIFEST_FILE lives in
src/constant.rs, which is not among the provided sources. Spec section 6:
the manifest entry is named everest.yaml; the warning text in download.rs
lines 180-186 confirms the same name. -/
def MOD_MANIFEST_FILE : String := "everest.yaml"

/-- The three UTF-8 byte-order-mark bytes. -/
def bomBytes : List Nat := [0xEF, 0xBB, 0xBF]

/-- BOM stripping of fileutil.rs lines 59-61: when the buffer has at least
three bytes and they are EF BB BF, drop them; otherwise return the buffer
unchanged. -/
def stripBom (buffer : List Nat) : List Nat :=
  if 3 ≤ buffer.length ∧ buffer[0]? = some 0xEF ∧ buffer[1]? = some 0xBB
      ∧ buffer[2]? = some 0xBF then
    buffer.drop 3
  else
    buffer

/-- Manifest extraction of fileutil.rs lines 47-68: open the container
(corrupt containers fail with the zip error), look up the entry by the
exact name everest.yaml (ZipArchive by_name), strip a leading BOM, and
return the bytes; a missing entry is the normal Ok-none outcome. -/
def read_manifest_file_from_zip (zip : ArchiveData) :
    Except Error (Option (List Nat)) :=
  match zip with
  | .corrupt => .error .zipError
  | .archiveEntries entries =>
    match entries.find? (fun e => e.1 == MOD_MANIFEST_FILE) with
    | some e => .ok (some (stripBom e.2))
    | none => .ok none

/-- The manifest-locating loop of ModMetadataList::from_zip, everest_yaml.rs
lines 45-59: walk the entries in order and return the first one whose name
ends with everest.yaml or with everest.yml (a case-sensitive suffix test). -/
def findManifestEntry : List (String × List Nat) → Option (String × List Nat)
  | [] => none
  | e :: rest =>
    if nameEndsWith e.1 "everest.yaml" || nameEndsWith e.1 "everest.yml" then
      some e
    else
      findManifestEntry rest

/-! ## Directory scan (src/fileutil.rs, src/download.rs) -/

/-- One entry of the managed directory: its file name, whether it is a
regular file, its container structure, and its raw bytes (the input of the
whole-archive hash). -/
structure DirEntry where
  name : String
  isDirFile : Bool
  data : ArchiveData
  raw : List Nat
deriving DecidableEq

/-- The extension test of fileutil.rs line 38 (Rust Path extension equal to
zip): the name ends in dot zip and has a nonempty stem. -/
def hasZipExtension (name : String) : Bool :=
  nameEndsWith name ".zip" && decide (4 < name.data.length)

/-- Directory enumeration of fileutil.rs lines 26-44: a missing managed
directory is the one fatal error; otherwise keep the regular files with the
zip extension. The selected entry named n stands for the archive at path
mods_directory ++ [n]. -/
def find_installed_mod_archives (dir : Option (List DirEntry)) :
    Except Error (List DirEntry) :=
  match dir with
  | none => .error .missingModsDirectory
  | some entries =>
    .ok (entries.filter (fun e => e.isDirFile && hasZipExtension e.name))

/-- The per-archive loop of ModDownloader::list_installed_mods, download.rs
lines 166-189. hashHex is the external xxh64 hex digest (sync_hash_file over
the whole archive file), yamlParse the external serde_yaml_ng decoding of
manifest bytes. A failing manifest read or a failing parse propagates (the
question-mark operator in the source); an absent manifest is logged and
skipped. -/
def scanArchives (hashHex : List Nat → String)
    (yamlParse : List Nat → Except Unit (List ModManifest))
    (mods_dir : List String) : List DirEntry → Except Error (List LocalModInfo)
  | [] => .ok []
  | e :: rest =>
    match read_manifest_file_from_zip e.data with
    | .error err => .error err
    | .ok (some content) =>
      let checksum := hashHex e.raw
      match ModManifest.parse_mod_manifest_from_yaml (yamlParse content) with
      | .error err => .error err
      | .ok manifest =>
        match scanArchives hashHex yamlParse mods_dir rest with
        | .error err => .error err
        | .ok rest' =>
          .ok (LocalModInfo.new (mods_dir ++ [e.name]) manifest checksum :: rest')
    | .ok none => scanArchives hashHex yamlParse mods_dir rest

/-- Insertion of an element into a sorted list, the building block of the
sort model. -/
def insertSorted (le : α → α → Bool) (a : α) : List α → List α
  | [] => [a]
  | b :: rest => if le a b then a :: b :: rest else b :: insertSorted le a rest

/-- Stable insertion sort, modelling the Rust slice sort_by call of
download.rs line 193. -/
def sortByLe (le : α → α → Bool) : List α → List α
  | [] => []
  | a :: rest => insertSorted le a (sortByLe le rest)

/-- ModDownloader::list_installed_mods, download.rs lines 157-199: enumerate
the archives of the managed directory, scan each, and sort the surviving
records by mod name in ascending byte order. -/
def list_installed_mods (hashHex : List Nat → String)
    (yamlParse : List Nat → Except Unit (List ModManifest))
    (mods_dir : List String) (dir : Option (List DirEntry)) :
    Except Error (List LocalModInfo) :=
  match find_installed_mod_archives dir with
  | .error e => .error e
  | .ok archives =>
    match scanArchives hashHex yamlParse mods_dir archives with
    | .error e => .error e
    | .ok mods =>
      .ok (sortByLe (fun a b => strLeByte a.mod_name b.mod_name) mods)

/-! ## Download executor (src/download.rs, src/main.rs) -/

/-- The filesystem the download phase touches: an association list from
paths to byte contents. -/
def FS : Type := List (List String × List Nat)

/-- Content of the file at a path, if any. -/
def getFile : FS → List String → Option (List Nat)
  | [], _ => none
  | (q, b) :: rest, p => if q = p then some b else getFile rest p

/-- Removal of the file at a path. -/
def removeFile : FS → List String → FS
  | [], _ => []
  | (q, b) :: rest, p =>
    if q = p then removeFile rest p else (q, b) :: removeFile rest p

/-- Creation (or truncation) of the file at a path with the given bytes. -/
def setFile (fs : FS) (p : List String) (b : List Nat) : FS :=
  (p, b) :: removeFile fs p

/-- Existence test for a path. -/
def fileExists (fs : FS) (p : List String) : Bool :=
  (getFile fs p).isSome

/-- ModDownloader::download_mod, download.rs lines 93-154, after the stream
has completed: the destination file holds exactly the streamed bytes, the
running hash is the digest of those bytes, and the verification step either
accepts (the digest is contained in the expected list, exact Vec contains)
or deletes the fresh file and fails with InvalidChecksum carrying the
destination, the computed digest and the expected list. The network
request, the filename choice and the streamed body are inputs here: the
model starts at the point where the destination path and the complete body
are known. -/
def download_mod (hashHex : List Nat → String) (fs : FS)
    (download_path : List String) (body : List Nat)
    (expected_hash : List String) : FS × Except Error Unit :=
  let fs1 := setFile fs download_path body
  let hash_str := hashHex body
  if expected_hash.contains hash_str then
    (fs1, .ok ())
  else
    (removeFile fs1 download_path,
     .error (.invalidChecksum download_path hash_str expected_hash))

/-- Terminal outcome of one update task, as reported by the spawned block of
main.rs lines 146-171. -/
inductive TaskReport where
  | success (name version : String)
  | failure (name : String) (e : Error)
deriving DecidableEq

/-- The mod name a report is about. -/
def TaskReport.reportedName : TaskReport → String
  | .success name _ => name
  | .failure name _ => name

/-- The body of one spawned update task, main.rs lines 141-172: run
download_mod; on success, delete the superseded file if it exists and
report success with the new version; on error, report the per-task
failure. -/
def execute_update (hashHex : List Nat → String) (fs : FS)
    (update : AvailableUpdateInfo) (dest : List String) (body : List Nat) :
    FS × TaskReport :=
  match download_mod hashHex fs dest body update.hash with
  | (fs1, .ok _) =>
    let fs2 :=
      if fileExists fs1 update.existing_path then
        removeFile fs1 update.existing_path
      else fs1
    (fs2, .success update.name update.available_version)
  | (fs1, .error e) => (fs1, .failure update.name e)

/-- The batch loop of main.rs lines 135-178: every pending update is
executed and yields exactly one terminal report; a failing task only
records its failure and the loop continues with the remaining tasks. -/
def run_updates (hashHex : List Nat → String) :
    FS → List (AvailableUpdateInfo × List String × List Nat) →
    FS × List TaskReport
  | fs, [] => (fs, [])
  | fs, (u, dest, body) :: rest =>
    let step := execute_update hashHex fs u dest body
    let next := run_updates hashHex step.1 rest
    (next.1, step.2 :: next.2)

/-- Observable events of one batch run. -/
inductive UpdateEvent where
  | taskReport (r : TaskReport)
  | batchCompleted
deriving DecidableEq

/-- The whole Update --install arm after planning, main.rs lines 135-180:
execute every task, emit its individual report, and only after all tasks
have reached a terminal state emit the overall completion message. -/
def run_update_batch (hashHex : List Nat → String) (fs : FS)
    (tasks : List (AvailableUpdateInfo × List String × List Nat)) :
    FS × List UpdateEvent :=
  let finished := run_updates hashHex fs tasks
  (finished.1, finished.2.map UpdateEvent.taskReport ++ [UpdateEvent.batchCompleted])

/-- Resolution of a path against the working directory of the process: an
absolute path (leading component "/") stands alone, a relative path is
interpreted under the working directory. This is what the operating system
does with the existing_path argument of the remove call in main.rs
line 154. -/
def resolvePath (cwd p : List String) : List String :=
  if p.head? = some "/" then p else cwd ++ p

/-! ## Helper lemmas: filesystem model -/

theorem getFile_setFile_self (fs : FS) (p : List String) (b : List Nat) :
    getFile (setFile fs p b) p = some b := by
  simp [setFile, getFile]

theorem getFile_removeFile_self (fs : FS) (p : List String) :
    getFile (removeFile fs p) p = none := by
  induction fs with
  | nil => simp [removeFile, getFile]
  | cons e rest ih =>
    obtain ⟨q, b⟩ := e
    by_cases h : q = p
    · simpa [removeFile, h] using ih
    · simpa [removeFile, getFile, h] using ih

theorem getFile_removeFile_ne (fs : FS) (p q : List String) (h : q ≠ p) :
    getFile (removeFile fs p) q = getFile fs q := by
  induction fs with
  | nil => simp [removeFile]
  | cons e rest ih =>
    obtain ⟨r, b⟩ := e
    by_cases hr : r = p
    · simp [removeFile, getFile, hr, Ne.symm h, ih]
    · simp [removeFile, getFile, hr, ih]

theorem getFile_setFile_ne (fs : FS) (p q : List String) (b : List Nat)
    (h : q ≠ p) : getFile (setFile fs p b) q = getFile fs q := by
  simp only [setFile, getFile]
  rw [if_neg (fun hq : p = q => h hq.symm)]
  exact getFile_removeFile_ne fs p q h

/-! ## Helper lemmas: byte order and sorting -/

theorem charListLe_total : ∀ as bs : List Char,
    charListLe as bs = true ∨ charListLe bs as = true
  | [], _ => Or.inl rfl
  | _ :: _, [] => Or.inr rfl
  | a :: as, b :: bs => by
    by_cases hab : a = b
    · rcases charListLe_total as bs with h | h
      · left
        simp [charListLe, hab, h]
      · right
        simp [charListLe, hab.symm, h]
    · rcases lt_or_gt_of_ne hab with hlt | hgt
      · left
        simp [charListLe, hab, hlt]
      · right
        simp [charListLe, Ne.symm hab, hgt]

theorem charListLe_trans : ∀ as bs cs : List Char,
    charListLe as bs = true → charListLe bs cs = true →
    charListLe as cs = true
  | [], _, _, _, _ => rfl
  | _ :: _, [], _, h1, _ => by simp [charListLe] at h1
  | _ :: _, _ :: _, [], _, h2 => by simp [charListLe] at h2
  | a :: as, b :: bs, c :: cs, h1, h2 => by
    simp only [charListLe] at h1 h2 ⊢
    by_cases hab : a = b
    · by_cases hbc : b = c
      · rw [if_pos (hab.trans hbc)]
        rw [if_pos hab] at h1
        rw [if_pos hbc] at h2
        exact charListLe_trans as bs cs h1 h2
      · rw [if_neg hbc, decide_eq_true_eq] at h2
        have hac : a < c := hab ▸ h2
        rw [if_neg (ne_of_lt hac), decide_eq_true_eq]
        exact hac
    · rw [if_neg hab, decide_eq_true_eq] at h1
      by_cases hbc : b = c
      · have hac : a < c := hbc ▸ h1
        rw [if_neg (ne_of_lt hac), decide_eq_true_eq]
        exact hac
      · rw [if_neg hbc, decide_eq_true_eq] at h2
        have hac : a < c := lt_trans h1 h2
        rw [if_neg (ne_of_lt hac), decide_eq_true_eq]
        exact hac

theorem strLeByte_total (a b : String) :
    strLeByte a b = true ∨ strLeByte b a = true :=
  charListLe_total a.data b.data

theorem strLeByte_trans (a b c : String) (h1 : strLeByte a b = true)
    (h2 : strLeByte b c = true) : strLeByte a c = true :=
  charListLe_trans a.data b.data c.data h1 h2

theorem mem_insertSorted (le : α → α → Bool) (a x : α) :
    ∀ l : List α, x ∈ insertSorted le a l ↔ x = a ∨ x ∈ l
  | [] => by simp [insertSorted]
  | b :: rest => by
    by_cases h : le a b = true
    · simp [insertSorted, h]
    · simp only [insertSorted, if_neg h, List.mem_cons, mem_insertSorted le a x rest]
      tauto

theorem insertSorted_pairwise (le : α → α → Bool)
    (htrans : ∀ a b c, le a b = true → le b c = true → le a c = true)
    (htotal : ∀ a b, le a b = true ∨ le b a = true) (a : α) :
    ∀ l : List α, l.Pairwise (fun x y => le x y = true) →
    (insertSorted le a l).Pairwise (fun x y => le x y = true)
  | [], _ => by simp [insertSorted]
  | b :: rest, h => by
    rw [List.pairwise_cons] at h
    by_cases hab : le a b = true
    · rw [insertSorted, if_pos hab, List.pairwise_cons]
      refine ⟨?_, List.pairwise_cons.2 h⟩
      intro x hx
      rcases List.mem_cons.1 hx with hxb | hxr
      · exact hxb ▸ hab
      · exact htrans a b x hab (h.1 x hxr)
    · rw [insertSorted, if_neg hab, List.pairwise_cons]
      refine ⟨?_, insertSorted_pairwise le htrans htotal a rest h.2⟩
      intro x hx
      rcases (mem_insertSorted le a x rest).1 hx with hxa | hxr
      · rcases htotal a b with hta | htb
        · exact absurd hta hab
        · rw [hxa]
          exact htb
      · exact h.1 x hxr

theorem sortByLe_pairwise (le : α → α → Bool)
    (htrans : ∀ a b c, le a b = true → le b c = true → le a c = true)
    (htotal : ∀ a b, le a b = true ∨ le b a = true) :
    ∀ l : List α, (sortByLe le l).Pairwise (fun x y => le x y = true)
  | [] => by simp [sortByLe]
  | a :: rest => by
    rw [sortByLe]
    exact insertSorted_pairwise le htrans htotal a (sortByLe le rest)
      (sortByLe_pairwise le htrans htotal rest)

/-! ## Concrete sample data used by witnesses and counterexamples -/

/-- Sample external hash: the digest of the byte buffer [1] is "aaaa" and of
any other buffer "bbbb". -/
def sampleHash : List Nat → String :=
  fun b => if b = [1] then "aaaa" else "bbbb"

/-- A sample manifest record. -/
def manifestZeta : ModManifest :=
  { name := "Zeta", version := "1.0", dll := none, dependencies := none
    optional_dependencies := none }

/-- A second sample manifest record. -/
def manifestAlpha : ModManifest :=
  { name := "Alpha", version := "2.0", dll := none, dependencies := none
    optional_dependencies := none }

/-- Sample external YAML decoding: byte buffer [1] decodes to the Zeta
manifest, any other buffer to the Alpha manifest. -/
def sampleYaml : List Nat → Except Unit (List ModManifest) :=
  fun content => if content = [1] then .ok [manifestZeta] else .ok [manifestAlpha]

/-- Sample managed directory path. -/
def sampleModsDir : List String := ["/", "home", "Mods"]

/-- Sample archive entry holding the Zeta mod. -/
def entryZeta : DirEntry :=
  { name := "z.zip", isDirFile := true
    data := .archiveEntries [("everest.yaml", [1])], raw := [1] }

/-- Sample archive entry holding the Alpha mod. -/
def entryAlpha : DirEntry :=
  { name := "a.zip", isDirFile := true
    data := .archiveEntries [("everest.yaml", [2])], raw := [2] }

/-- Sample archive entry whose container is corrupt. -/
def entryCorrupt : DirEntry :=
  { name := "bad.zip", isDirFile := true, data := .corrupt, raw := [9] }

/-- Sample archive entry without a manifest. -/
def entryNoManifest : DirEntry :=
  { name := "plain.zip", isDirFile := true
    data := .archiveEntries [("assets.bin", [5])], raw := [5] }

/-! ## Claim C10 -/

/-- Claim C10: a manifest document that parses successfully but declares
zero entries makes parse_mod_manifest_from_yaml return the
NoEntriesInModManifest error value rather than a manifest record. -/
theorem c10_empty_manifest_rejected (parsed : Except Unit (List ModManifest))
    (h : parsed = .ok []) :
    ModManifest.parse_mod_manifest_from_yaml parsed =
      .error (.noEntriesInModManifest []) := by
  rw [h]
  rfl

theorem c10_empty_manifest_rejected_witness :
    ModManifest.parse_mod_manifest_from_yaml (.ok []) =
      .error (.noEntriesInModManifest []) :=
  c10_empty_manifest_rejected (.ok []) rfl

/-! ## Claim C7 -/

/-- Claim C7 counterexample: for the manifest content that is itself exactly
the three BOM bytes, reading the BOM-prefixed bytes gives the BOM bytes
back, while reading the content alone gives the empty buffer: the two reads
differ, so the claimed identity does not hold for every content. -/
theorem c7_counterexample :
    read_manifest_file_from_zip
        (.archiveEntries [(MOD_MANIFEST_FILE, bomBytes ++ bomBytes)]) =
      .ok (some bomBytes) ∧
    read_manifest_file_from_zip
        (.archiveEntries [(MOD_MANIFEST_FILE, bomBytes)]) =
      .ok (some []) ∧
    read_manifest_file_from_zip
        (.archiveEntries [(MOD_MANIFEST_FILE, bomBytes ++ bomBytes)]) ≠
      read_manifest_file_from_zip
        (.archiveEntries [(MOD_MANIFEST_FILE, bomBytes)]) := by
  refine ⟨rfl, rfl, fun h => ?_⟩
  have h1 : (some bomBytes : Option (List Nat)) = some [] := Except.ok.inj h
  simp [bomBytes] at h1

/-- Claim C7 amended: reading a BOM-prefixed manifest always returns exactly
the content after the BOM, and this agrees with reading the content alone
whenever the content does not itself begin with a BOM. -/
theorem c7_amended_bom_stripped (c : List Nat)
    (hc : stripBom c = c) :
    read_manifest_file_from_zip
        (.archiveEntries [(MOD_MANIFEST_FILE, bomBytes ++ c)]) =
      .ok (some c) ∧
    read_manifest_file_from_zip
        (.archiveEntries [(MOD_MANIFEST_FILE, bomBytes ++ c)]) =
      read_manifest_file_from_zip (.archiveEntries [(MOD_MANIFEST_FILE, c)]) := by
  have hstrip : stripBom (bomBytes ++ c) = c := by
    have : 3 ≤ (bomBytes ++ c).length := by
      simp [bomBytes]
    simp [stripBom, bomBytes]
  constructor
  · simp [read_manifest_file_from_zip, List.find?_cons, hstrip]
  · simp [read_manifest_file_from_zip, List.find?_cons, hstrip, hc]

theorem c7_amended_bom_stripped_witness :
    read_manifest_file_from_zip
        (.archiveEntries [(MOD_MANIFEST_FILE, bomBytes ++ [104, 105])]) =
      .ok (some [104, 105]) ∧
    read_manifest_file_from_zip
        (.archiveEntries [(MOD_MANIFEST_FILE, bomBytes ++ [104, 105])]) =
      read_manifest_file_from_zip
        (.archiveEntries [(MOD_MANIFEST_FILE, [104, 105])]) :=
  c7_amended_bom_stripped [104, 105] (by decide)

/-! ## Claim C5 -/

theorem findManifestEntry_eq_find? :
    ∀ entries : List (String × List Nat),
      findManifestEntry entries =
        entries.find? (fun e =>
          nameEndsWith e.1 "everest.yaml" || nameEndsWith e.1 "everest.yml")
  | [] => rfl
  | e :: rest => by
    by_cases h :
        (nameEndsWith e.1 "everest.yaml" || nameEndsWith e.1 "everest.yml") = true
    · simp [findManifestEntry, List.find?_cons, h]
    · simp only [Bool.not_eq_true] at h
      simp [findManifestEntry, List.find?_cons, h,
        findManifestEntry_eq_find? rest]

/-- Claim C5 counterexample: an archive whose only entry is named
Sub/EVEREST.YAML (an uppercase variant in a subdirectory). The claim says
the manifest locator finds it; both locators of the code miss it: the entry
walk of ModMetadataList::from_zip matches suffixes case-sensitively, and
the exact-name lookup of read_manifest_file_from_zip reports the manifest
as absent. -/
theorem c5_counterexample :
    findManifestEntry [("Sub/EVEREST.YAML", [104])] = none ∧
    read_manifest_file_from_zip
        (.archiveEntries [("Sub/EVEREST.YAML", [104])]) = .ok none := by
  exact ⟨by decide, rfl⟩

/-- Claim C5 amended: the manifest locator of ModMetadataList::from_zip
walks the entries in order and returns the first whose name ends with
everest.yaml or everest.yml under a case-sensitive comparison; entries in
subdirectories are accepted (the suffix test ignores depth), lowercase
variants are found and uppercase variants are not. -/
theorem c5_amended_case_sensitive_suffix_first_wins :
    (∀ entries : List (String × List Nat),
      findManifestEntry entries =
        entries.find? (fun e =>
          nameEndsWith e.1 "everest.yaml" || nameEndsWith e.1 "everest.yml")) ∧
    findManifestEntry [("Sub/everest.yaml", [104])] =
      some ("Sub/everest.yaml", [104]) ∧
    findManifestEntry [("Deep/Sub/everest.yml", [104])] =
      some ("Deep/Sub/everest.yml", [104]) ∧
    findManifestEntry
        [("a/everest.yaml", [1]), ("b/everest.yaml", [2])] =
      some ("a/everest.yaml", [1]) ∧
    findManifestEntry [("Sub/EVEREST.YAML", [104])] = none :=
  ⟨findManifestEntry_eq_find?, by decide, by decide, by decide, by decide⟩

/-! ## Claim C9 -/

/-- Claim C9: LocalModInfo.new keeps only the final filename component of
the archive path, and that relative component, later handed to the delete
call of the update phase, resolves under the current working directory of
the process, which differs from the managed directory location whenever the
two directories differ. -/
theorem c9_basename_resolves_under_cwd (d : List String) (n : String)
    (manifest : ModManifest) (checksum : String) (cwd : List String)
    (hn : n ≠ "/") (hcd : cwd ≠ d) :
    (LocalModInfo.new (d ++ [n]) manifest checksum).archive_path = [n] ∧
    resolvePath cwd (LocalModInfo.new (d ++ [n]) manifest checksum).archive_path
      = cwd ++ [n] ∧
    resolvePath cwd (LocalModInfo.new (d ++ [n]) manifest checksum).archive_path
      ≠ d ++ [n] := by
  have hpath :
      (LocalModInfo.new (d ++ [n]) manifest checksum).archive_path = [n] := by
    simp [LocalModInfo.new, List.getLast?_concat]
  have hres :
      resolvePath cwd (LocalModInfo.new (d ++ [n]) manifest checksum).archive_path
        = cwd ++ [n] := by
    rw [hpath]
    simp [resolvePath, hn]
  refine ⟨hpath, hres, ?_⟩
  rw [hres]
  intro heq
  exact hcd (List.append_cancel_right heq)

theorem c9_basename_resolves_under_cwd_witness :
    (LocalModInfo.new (sampleModsDir ++ ["z.zip"]) manifestZeta "aaaa").archive_path
      = ["z.zip"] ∧
    resolvePath ["/", "tmp"]
        (LocalModInfo.new (sampleModsDir ++ ["z.zip"]) manifestZeta "aaaa").archive_path
      = ["/", "tmp"] ++ ["z.zip"] ∧
    resolvePath ["/", "tmp"]
        (LocalModInfo.new (sampleModsDir ++ ["z.zip"]) manifestZeta "aaaa").archive_path
      ≠ sampleModsDir ++ ["z.zip"] :=
  c9_basename_resolves_under_cwd sampleModsDir "z.zip" manifestZeta "aaaa"
    ["/", "tmp"] (by decide) (by decide)

/-! ## Claims C1 and C2 -/

/-- Claim C1: when the digest of the downloaded bytes is not contained in
the expected set, the task rolls back: the fresh destination file is gone,
the task report is the integrity failure carrying the computed digest and
the expected set, and the superseded file location is untouched. -/
theorem c1_integrity_failure_rolls_back (hashHex : List Nat → String)
    (fs : FS) (update : AvailableUpdateInfo) (dest : List String)
    (body : List Nat)
    (hmiss : update.hash.contains (hashHex body) = false)
    (hne : dest ≠ update.existing_path) :
    getFile (execute_update hashHex fs update dest body).1 dest = none ∧
    (execute_update hashHex fs update dest body).2 =
      .failure update.name (.invalidChecksum dest (hashHex body) update.hash) ∧
    getFile (execute_update hashHex fs update dest body).1 update.existing_path
      = getFile fs update.existing_path := by
  have hmiss' : hashHex body ∉ update.hash := by
    simpa using hmiss
  have hdl : download_mod hashHex fs dest body update.hash =
      (removeFile (setFile fs dest body) dest,
       .error (.invalidChecksum dest (hashHex body) update.hash)) := by
    simp [download_mod, hmiss']
  have hex : execute_update hashHex fs update dest body =
      (removeFile (setFile fs dest body) dest,
       .failure update.name
         (.invalidChecksum dest (hashHex body) update.hash)) := by
    simp [execute_update, hdl]
  rw [hex]
  refine ⟨getFile_removeFile_self _ _, rfl, ?_⟩
  rw [getFile_removeFile_ne _ _ _ (Ne.symm hne)]
  exact getFile_setFile_ne fs dest update.existing_path body (Ne.symm hne)

/-- Sample pending update whose expected digest set does not contain the
digest of the sample body. -/
def updateMiss : AvailableUpdateInfo :=
  { name := "Zeta", current_version := "1.0", available_version := "1.1"
    url := "https://x/zeta.zip", hash := ["aaaa"], existing_path := ["z.zip"] }

/-- Sample pending update whose expected digest set contains the digest of
the sample body. -/
def updateHit : AvailableUpdateInfo :=
  { name := "Zeta", current_version := "1.0", available_version := "1.1"
    url := "https://x/zeta.zip", hash := ["bbbb"], existing_path := ["z.zip"] }

/-- Sample filesystem holding only the superseded archive. -/
def sampleFs : FS := [(["z.zip"], [1])]

/-- Sample destination path of the fresh download. -/
def destNew : List String := ["/", "home", "Mods", "zeta2.zip"]

theorem c1_integrity_failure_rolls_back_witness :
    getFile (execute_update sampleHash sampleFs updateMiss destNew [9]).1 destNew
      = none ∧
    (execute_update sampleHash sampleFs updateMiss destNew [9]).2 =
      .failure updateMiss.name
        (.invalidChecksum destNew (sampleHash [9]) updateMiss.hash) ∧
    getFile (execute_update sampleHash sampleFs updateMiss destNew [9]).1
        updateMiss.existing_path
      = getFile sampleFs updateMiss.existing_path :=
  c1_integrity_failure_rolls_back sampleHash sampleFs updateMiss destNew [9]
    (by decide) (by decide)

/-- Claim C2: when the digest of the downloaded bytes is contained in the
expected set, the commit step leaves no file at the superseded location,
the fresh file sits at the destination with a digest contained in the
expected set, and the task reports success with the new version. -/
theorem c2_commit_removes_superseded (hashHex : List Nat → String)
    (fs : FS) (update : AvailableUpdateInfo) (dest : List String)
    (body : List Nat)
    (hhit : update.hash.contains (hashHex body) = true)
    (hne : dest ≠ update.existing_path) :
    fileExists (execute_update hashHex fs update dest body).1
        update.existing_path = false ∧
    (∃ b, getFile (execute_update hashHex fs update dest body).1 dest = some b ∧
      update.hash.contains (hashHex b) = true) ∧
    (execute_update hashHex fs update dest body).2 =
      .success update.name update.available_version := by
  have hhit' : hashHex body ∈ update.hash := by
    simpa using hhit
  have hdl : download_mod hashHex fs dest body update.hash =
      (setFile fs dest body, .ok ()) := by
    simp [download_mod, hhit']
  by_cases hexists : fileExists (setFile fs dest body) update.existing_path = true
  · have hex : execute_update hashHex fs update dest body =
        (removeFile (setFile fs dest body) update.existing_path,
         .success update.name update.available_version) := by
      simp [execute_update, hdl, hexists]
    rw [hex]
    refine ⟨?_, ⟨body, ?_, hhit⟩, rfl⟩
    · simp [fileExists, getFile_removeFile_self]
    · rw [getFile_removeFile_ne _ _ _ hne]
      exact getFile_setFile_self fs dest body
  · have hex : execute_update hashHex fs update dest body =
        (setFile fs dest body,
         .success update.name update.available_version) := by
      simp [execute_update, hdl, hexists]
    rw [hex]
    refine ⟨?_, ⟨body, getFile_setFile_self fs dest body, hhit⟩, rfl⟩
    simpa using hexists

theorem c2_commit_removes_superseded_witness :
    fileExists (execute_update sampleHash sampleFs updateHit destNew [9]).1
        updateHit.existing_path = false ∧
    (∃ b, getFile (execute_update sampleHash sampleFs updateHit destNew [9]).1
        destNew = some b ∧
      updateHit.hash.contains (sampleHash b) = true) ∧
    (execute_update sampleHash sampleFs updateHit destNew [9]).2 =
      .success updateHit.name updateHit.available_version :=
  c2_commit_removes_superseded sampleHash sampleFs updateHit destNew [9]
    (by decide) (by decide)

/-! ## Claim C6 -/

theorem execute_update_reportedName (hashHex : List Nat → String) (fs : FS)
    (update : AvailableUpdateInfo) (dest : List String) (body : List Nat) :
    ((execute_update hashHex fs update dest body).2).reportedName
      = update.name := by
  unfold execute_update
  cases hdm : download_mod hashHex fs dest body update.hash with
  | mk fs1 r =>
    cases r with
    | ok v => simp [hdm, TaskReport.reportedName]
    | error e => simp [hdm, TaskReport.reportedName]

theorem run_updates_reportedNames (hashHex : List Nat → String) :
    ∀ (fs : FS) (tasks : List (AvailableUpdateInfo × List String × List Nat)),
      ((run_updates hashHex fs tasks).2).map TaskReport.reportedName
        = tasks.map (fun t => t.1.name)
  | _, [] => rfl
  | fs, (u, dest, body) :: rest => by
    simp only [run_updates, List.map]
    exact congrArg₂ List.cons
      (execute_update_reportedName hashHex fs u dest body)
      (run_updates_reportedNames hashHex
        (execute_update hashHex fs u dest body).1 rest)

/-- Claim C6: a batch run emits exactly one terminal report per task, in
task order and carrying the mod name of that task (so a failing task never
cancels or suppresses the execution of another task), and the overall completion
event comes only after every per-task report. -/
theorem c6_batch_reports_every_task (hashHex : List Nat → String) (fs : FS)
    (tasks : List (AvailableUpdateInfo × List String × List Nat)) :
    ∃ rs : List TaskReport,
      (run_update_batch hashHex fs tasks).2
        = rs.map UpdateEvent.taskReport ++ [UpdateEvent.batchCompleted] ∧
      rs.map TaskReport.reportedName = tasks.map (fun t => t.1.name) :=
  ⟨(run_updates hashHex fs tasks).2, rfl,
    run_updates_reportedNames hashHex fs tasks⟩

/-! ## Claim C3 -/

theorem has_matching_hash_iff (r : RemoteModInfo) (c : String) :
    r.has_matching_hash c = true ↔
      ∃ s ∈ r.checksums, lowerStr s = lowerStr c := by
  simp [RemoteModInfo.has_matching_hash, List.any_eq_true]

theorem check_updates_cons_none (lm : LocalModInfo) (rest : List LocalModInfo)
    (reg : ModRegistry) (h : reg.get_mod_info lm.mod_name = none) :
    check_updates (lm :: rest) reg = check_updates rest reg := by
  rw [check_updates, h]

theorem check_updates_cons_skip (lm : LocalModInfo) (rest : List LocalModInfo)
    (reg : ModRegistry) (rm : RemoteModInfo)
    (h : reg.get_mod_info lm.mod_name = some rm)
    (hm : rm.has_matching_hash lm.checksum = true) :
    check_updates (lm :: rest) reg = check_updates rest reg := by
  rw [check_updates, h]
  simp [hm]

theorem check_updates_cons_push (lm : LocalModInfo) (rest : List LocalModInfo)
    (reg : ModRegistry) (rm : RemoteModInfo)
    (h : reg.get_mod_info lm.mod_name = some rm)
    (hm : rm.has_matching_hash lm.checksum = false) :
    check_updates (lm :: rest) reg =
      { name := lm.mod_name, current_version := lm.version,
        available_version := rm.version, url := rm.download_url,
        hash := rm.checksums,
        existing_path := lm.archive_path } :: check_updates rest reg := by
  rw [check_updates, h]
  simp [hm]

/-- Claim C3: the planner produces a task for a local mod exactly when the
registry holds an entry under the exact mod name and the local fingerprint
is, up to lowercasing of both sides, equal to no member of that entry
checksum set; the produced task copies the registry entry data. In
particular no task exists for a name absent from the registry. -/
theorem c3_plan_iff (installed : List LocalModInfo) (reg : ModRegistry)
    (u : AvailableUpdateInfo) :
    u ∈ check_updates installed reg ↔
      ∃ lm ∈ installed, ∃ rm, reg.get_mod_info lm.mod_name = some rm ∧
        ¬ (∃ s ∈ rm.checksums, lowerStr s = lowerStr lm.checksum) ∧
        u = { name := lm.mod_name, current_version := lm.version,
              available_version := rm.version, url := rm.download_url,
              hash := rm.checksums, existing_path := lm.archive_path } := by
  induction installed with
  | nil => simp [check_updates]
  | cons lm rest ih =>
    cases hreg : reg.get_mod_info lm.mod_name with
    | none =>
      rw [check_updates_cons_none lm rest reg hreg, ih]
      constructor
      · intro h
        obtain ⟨lm2, hmem, rest2⟩ := h
        exact ⟨lm2, List.mem_cons_of_mem lm hmem, rest2⟩
      · intro h
        obtain ⟨lm2, hmem, hrest⟩ := h
        rcases List.mem_cons.1 hmem with heq | hmem2
        · obtain ⟨rm, hrm, _⟩ := hrest
          rw [heq, hreg] at hrm
          exact absurd hrm (by simp)
        · exact ⟨lm2, hmem2, hrest⟩
    | some rm =>
      by_cases hmatch : rm.has_matching_hash lm.checksum = true
      · rw [check_updates_cons_skip lm rest reg rm hreg hmatch, ih]
        constructor
        · intro h
          obtain ⟨lm2, hmem, rest2⟩ := h
          exact ⟨lm2, List.mem_cons_of_mem lm hmem, rest2⟩
        · intro h
          obtain ⟨lm2, hmem, hrest⟩ := h
          rcases List.mem_cons.1 hmem with heq | hmem2
          · obtain ⟨rm2, hrm, hnot, _⟩ := hrest
            rw [heq, hreg] at hrm
            have hrm2 : rm = rm2 := Option.some.inj hrm
            rw [← hrm2, heq] at hnot
            exact absurd ((has_matching_hash_iff rm lm.checksum).1 hmatch) hnot
          · exact ⟨lm2, hmem2, hrest⟩
      · have hmatch2 : rm.has_matching_hash lm.checksum = false :=
          eq_false_of_ne_true hmatch
        rw [check_updates_cons_push lm rest reg rm hreg hmatch2]
        have hnot : ¬ (∃ s ∈ rm.checksums, lowerStr s = lowerStr lm.checksum) :=
          fun hex => hmatch ((has_matching_hash_iff rm lm.checksum).2 hex)
        constructor
        · intro h
          rcases List.mem_cons.1 h with heq | hmem2
          · exact ⟨lm, List.mem_cons_self lm rest, rm, hreg, hnot, heq⟩
          · obtain ⟨lm2, hmem, rest2⟩ := ih.1 hmem2
            exact ⟨lm2, List.mem_cons_of_mem lm hmem, rest2⟩
        · intro h
          obtain ⟨lm2, hmem, hrest⟩ := h
          rcases List.mem_cons.1 hmem with heq | hmem2
          · obtain ⟨rm2, hrm, _, hu⟩ := hrest
            rw [heq, hreg] at hrm
            have hrm2 : rm = rm2 := Option.some.inj hrm
            rw [heq, ← hrm2] at hu
            exact List.mem_cons.2 (Or.inl hu)
          · exact List.mem_cons.2 (Or.inr (ih.2 ⟨lm2, hmem2, hrest⟩))

/-- Sample local inventory: the Zeta mod with fingerprint "aaaa" and the
Alpha mod with fingerprint "bbbb". -/
def sampleInventory : List LocalModInfo :=
  [{ archive_path := ["z.zip"], mod_name := "Zeta", version := "1.0"
     checksum := "aaaa" },
   { archive_path := ["a.zip"], mod_name := "Alpha", version := "2.0"
     checksum := "bbbb" }]

/-- Sample registry: Zeta is tracked with a checksum set not containing
"aaaa"; Alpha is not tracked at all. -/
def sampleRegistry : ModRegistry :=
  { entries := [("Zeta",
      { name := "Zeta", version := "1.1", file_size := 10, updated_at := 5
        download_url := "https://x/zeta.zip", checksums := ["BBBB"]
        gamebanana_type := "Mod", gamebanana_id := 7 })] }

theorem c3_plan_iff_witness :
    ({ name := "Zeta", current_version := "1.0", available_version := "1.1"
       url := "https://x/zeta.zip", hash := ["BBBB"]
       existing_path := ["z.zip"] } : AvailableUpdateInfo)
      ∈ check_updates sampleInventory sampleRegistry :=
  (c3_plan_iff sampleInventory sampleRegistry _).2
    ⟨{ archive_path := ["z.zip"], mod_name := "Zeta", version := "1.0"
       checksum := "aaaa" },
     by decide,
     { name := "Zeta", version := "1.1", file_size := 10, updated_at := 5
       download_url := "https://x/zeta.zip", checksums := ["BBBB"]
       gamebanana_type := "Mod", gamebanana_id := 7 },
     by decide, by decide, by decide⟩

/-! ## Claim C8 -/

/-- Claim C8: every successful scan result is sorted by mod name in
ascending byte order. -/
theorem c8_scan_sorted_by_name (hashHex : List Nat → String)
    (yamlParse : List Nat → Except Unit (List ModManifest))
    (mods_dir : List String) (dir : Option (List DirEntry))
    (l : List LocalModInfo)
    (h : list_installed_mods hashHex yamlParse mods_dir dir = .ok l) :
    l.Pairwise (fun a b => strLeByte a.mod_name b.mod_name = true) := by
  cases h1 : find_installed_mod_archives dir with
  | error e =>
    have heval : list_installed_mods hashHex yamlParse mods_dir dir = .error e := by
      simp [list_installed_mods, h1]
    rw [heval] at h
    simp at h
  | ok archives =>
    cases h2 : scanArchives hashHex yamlParse mods_dir archives with
    | error e =>
      have heval : list_installed_mods hashHex yamlParse mods_dir dir = .error e := by
        simp [list_installed_mods, h1, h2]
      rw [heval] at h
      simp at h
    | ok mods =>
      have heval : list_installed_mods hashHex yamlParse mods_dir dir =
          .ok (sortByLe (fun a b => strLeByte a.mod_name b.mod_name) mods) := by
        simp [list_installed_mods, h1, h2]
      rw [heval] at h
      have hl : sortByLe (fun a b => strLeByte a.mod_name b.mod_name) mods = l :=
        Except.ok.inj h
      rw [← hl]
      exact sortByLe_pairwise (fun a b => strLeByte a.mod_name b.mod_name)
        (fun a b c hab hbc =>
          strLeByte_trans a.mod_name b.mod_name c.mod_name hab hbc)
        (fun a b => strLeByte_total a.mod_name b.mod_name) mods

theorem c8_scan_sorted_by_name_witness :
    ([{ archive_path := ["a.zip"], mod_name := "Alpha", version := "2.0"
        checksum := "bbbb" },
      { archive_path := ["z.zip"], mod_name := "Zeta", version := "1.0"
        checksum := "aaaa" }] : List LocalModInfo).Pairwise
      (fun a b => strLeByte a.mod_name b.mod_name = true) :=
  c8_scan_sorted_by_name sampleHash sampleYaml sampleModsDir
    (some [entryZeta, entryAlpha]) _ rfl

/-! ## Claim C4 -/

/-- An archive whose manifest read yields Ok-none contributes nothing to the
scan loop, wherever it sits in the list. -/
theorem scanArchives_skip_entry (hashHex : List Nat → String)
    (yamlParse : List Nat → Except Unit (List ModManifest))
    (mods_dir : List String) (e : DirEntry)
    (he : read_manifest_file_from_zip e.data = .ok none) :
    ∀ (A B : List DirEntry),
      scanArchives hashHex yamlParse mods_dir (A ++ e :: B)
        = scanArchives hashHex yamlParse mods_dir (A ++ B)
  | [], B => by
    simp only [List.nil_append, scanArchives, he]
  | a :: A, B => by
    simp only [List.cons_append]
    cases hr : read_manifest_file_from_zip a.data with
    | error err => simp only [scanArchives, hr]
    | ok mc =>
      cases mc with
      | none =>
        simp only [scanArchives, hr]
        exact scanArchives_skip_entry hashHex yamlParse mods_dir e he A B
      | some content =>
        cases hp : ModManifest.parse_mod_manifest_from_yaml (yamlParse content) with
        | error err => simp only [scanArchives, hr, hp]
        | ok mani =>
          simp only [scanArchives, hr, hp]
          rw [scanArchives_skip_entry hashHex yamlParse mods_dir e he A B]

/-- An archive whose own scan fails makes the scan of any list containing it
fail (the loop propagates the error instead of skipping the file). -/
theorem scanArchives_abort (hashHex : List Nat → String)
    (yamlParse : List Nat → Except Unit (List ModManifest))
    (mods_dir : List String) (e : DirEntry) (err : Error)
    (he : scanArchives hashHex yamlParse mods_dir [e] = .error err) :
    ∀ (A B : List DirEntry), ∃ err2,
      scanArchives hashHex yamlParse mods_dir (A ++ e :: B) = .error err2
  | [], B => by
    cases hr : read_manifest_file_from_zip e.data with
    | error err3 =>
      exact ⟨err3, by simp only [List.nil_append, scanArchives, hr]⟩
    | ok mc =>
      cases mc with
      | none => simp [scanArchives, hr] at he
      | some content =>
        cases hp : ModManifest.parse_mod_manifest_from_yaml (yamlParse content) with
        | error err3 =>
          exact ⟨err3, by simp only [List.nil_append, scanArchives, hr, hp]⟩
        | ok mani => simp [scanArchives, hr, hp] at he
  | a :: A, B => by
    cases hr : read_manifest_file_from_zip a.data with
    | error err3 =>
      exact ⟨err3, by simp only [List.cons_append, scanArchives, hr]⟩
    | ok mc =>
      cases mc with
      | none =>
        obtain ⟨err2, hA⟩ :=
          scanArchives_abort hashHex yamlParse mods_dir e err he A B
        refine ⟨err2, ?_⟩
        simp only [List.cons_append, scanArchives, hr]
        exact hA
      | some content =>
        cases hp : ModManifest.parse_mod_manifest_from_yaml (yamlParse content) with
        | error err3 =>
          exact ⟨err3, by simp only [List.cons_append, scanArchives, hr, hp]⟩
        | ok mani =>
          obtain ⟨err2, hA⟩ :=
            scanArchives_abort hashHex yamlParse mods_dir e err he A B
          refine ⟨err2, ?_⟩
          simp only [List.cons_append, scanArchives, hr, hp, List.append_eq, hA]

/-- Claim C4 counterexample: a directory holding a corrupt archive followed
by a healthy one. The claim says the corrupt container is reported, skipped
and the scan of the remaining files continues; the code instead aborts the
whole scan with the zip error, so the healthy archive is never delivered. -/
theorem c4_counterexample :
    list_installed_mods sampleHash sampleYaml sampleModsDir
      (some [entryCorrupt, entryAlpha]) = .error .zipError := rfl

/-- Claim C4 amended: an archive without a manifest entry is skipped and the
scan of the remaining files proceeds; a missing managed directory is fatal
to the scan call; but an archive whose container is corrupt or whose
manifest fails to parse aborts the entire scan with an error instead of
being skipped. -/
theorem c4_amended_scan_error_policy (hashHex : List Nat → String)
    (yamlParse : List Nat → Except Unit (List ModManifest))
    (mods_dir : List String) (l1 l2 : List DirEntry) (e1 e2 : DirEntry)
    (res : List LocalModInfo) (err : Error)
    (h1 : read_manifest_file_from_zip e1.data = .ok none)
    (h2pass : (e2.isDirFile && hasZipExtension e2.name) = true)
    (h2err : scanArchives hashHex yamlParse mods_dir [e2] = .error err) :
    list_installed_mods hashHex yamlParse mods_dir (some (l1 ++ e1 :: l2))
      = list_installed_mods hashHex yamlParse mods_dir (some (l1 ++ l2)) ∧
    list_installed_mods hashHex yamlParse mods_dir none
      = .error .missingModsDirectory ∧
    list_installed_mods hashHex yamlParse mods_dir (some (l1 ++ e2 :: l2))
      ≠ .ok res := by
  refine ⟨?_, rfl, ?_⟩
  · simp only [list_installed_mods, find_installed_mod_archives,
      List.filter_append, List.filter_cons]
    by_cases hpass : (e1.isDirFile && hasZipExtension e1.name) = true
    · rw [if_pos hpass,
        scanArchives_skip_entry hashHex yamlParse mods_dir e1 h1 _ _]
    · rw [if_neg hpass]
  · obtain ⟨err2, habort⟩ :=
      scanArchives_abort hashHex yamlParse mods_dir e2 err h2err
        (l1.filter (fun e => e.isDirFile && hasZipExtension e.name))
        (l2.filter (fun e => e.isDirFile && hasZipExtension e.name))
    simp only [list_installed_mods, find_installed_mod_archives,
      List.filter_append, List.filter_cons, h2pass, if_pos, habort]
    simp

theorem c4_amended_scan_error_policy_witness :
    list_installed_mods sampleHash sampleYaml sampleModsDir
        (some ([entryZeta] ++ entryNoManifest :: [entryAlpha]))
      = list_installed_mods sampleHash sampleYaml sampleModsDir
          (some ([entryZeta] ++ [entryAlpha])) ∧
    list_installed_mods sampleHash sampleYaml sampleModsDir none
      = .error .missingModsDirectory ∧
    list_installed_mods sampleHash sampleYaml sampleModsDir
        (some ([entryZeta] ++ entryCorrupt :: [entryAlpha]))
      ≠ .ok [] :=
  c4_amended_scan_error_policy sampleHash sampleYaml sampleModsDir
    [entryZeta] [entryAlpha] entryNoManifest entryCorrupt [] .zipError
    rfl (by decide) rfl
